import Mathlib

/-!
Verification of the presence-tracking and event-throttling engine of
`birdcam_feed.py` (function `display_rtsp_feed`).

Shallow embedding conventions:
* timestamps and confidences are rationals (`Q`); the Python code compares
  `(current_time - LAST_LOG_TIME[obj]).total_seconds() >= LOG_INTERVAL_SECONDS`,
  which is `interval <= now - l` here;
* the per-class mutable structures `object_present_since[name]` and
  `LAST_LOG_TIME[name]` become the two fields of `ClassState`;
* the dictionary `mapped_target_class_ids` becomes an association list
  `List (String × Nat)` of `(lower-cased name, class id)` pairs; a Python
  dict has pairwise-distinct keys, and (as proved below for the resolver)
  pairwise-distinct ids, so theorems that need those facts take them as
  hypotheses;
* `cv2.imwrite` returns a boolean that the source ignores; that return value
  is the `persistOk` argument threaded through the step function.
-/

-- Rational arithmetic must evaluate inside concrete runs below; these
-- library definitions are irreducible by default, which blocks that.
attribute [local semireducible] Rat.sub Rat.add Rat.mul Rat.inv Rat.ofScientific

/-- Per-class tracking state: `object_present_since[name]` and
`LAST_LOG_TIME[name]` from the source (`None` / missing key is `none`). -/
structure ClassState where
  present_since : Option ℚ
  last_logged_at : Option ℚ
deriving Repr, DecidableEq

/-- Result of running the per-class body of the logging loop for one frame:
the updated tracking state and whether an event was emitted
(`should_log_and_save` in the source). -/
structure StepResult where
  state : ClassState
  emit : Bool
deriving Repr, DecidableEq

/-- The per-class body of the logging loop (source lines 136-165).

`detected` is `detected_in_current_frame[obj_name_lower]`, `now` is
`current_time`, `persistOk` is the (ignored) return value of `cv2.imwrite`.
The source computes `should_log_and_save`, updates `object_present_since`
inside the branch on detection, and, when logging, saves the image and sets
`LAST_LOG_TIME[obj] = current_time`. -/
def stepClass (interval : ℚ) (detected : Bool) (now : ℚ) (persistOk : Bool)
    (s : ClassState) : StepResult :=
  let shouldLog : Bool :=
    if detected then
      match s.present_since with
      | none => true
      | some _ =>
        match s.last_logged_at with
        | none => true
        | some l => decide (interval ≤ now - l)
    else false
  let presentSince : Option ℚ :=
    if detected then
      match s.present_since with
      | none => some now
      | some t => some t
    else none
  -- `cv2.imwrite(image_filename, annotated_frame)` result is not inspected
  let _ := persistOk
  { state :=
      { present_since := presentSince,
        last_logged_at := if shouldLog then some now else s.last_logged_at },
    emit := shouldLog }

/-- Startup state: `object_present_since` initialised to `None` for every
class, `LAST_LOG_TIME` the empty dict. -/
def initState : String → ClassState := fun _ => ⟨none, none⟩

/-- Hard-coded confidence threshold from `confidence > 0.5` (line 120). -/
def confThreshold : ℚ := 1/2

/-- Hard-coded `LOG_INTERVAL_SECONDS = 1` (line 11). -/
def logIntervalSeconds : ℚ := 1

/-- One raw YOLO detection: `box.cls[0]`, `box.conf[0]`, `box.xyxy[0]`. -/
structure Box where
  cls : ℕ
  conf : ℚ
  xyxy : ℤ × ℤ × ℤ × ℤ
deriving Repr, DecidableEq

/-- The inner loop over `mapped_target_class_ids.items()` for one box
(lines 119-133): the first target with `cls_id == desired_id and
confidence > 0.5` is taken (the loop breaks there); `none` when no target
matches. -/
def findTarget (targets : List (String × ℕ)) (b : Box) : Option (String × ℕ) :=
  targets.find? (fun p => b.cls == p.2 && decide (confThreshold < b.conf))

/-- The names set to `True` in `detected_in_current_frame` over a frame:
one entry per box that matched some target (lines 112-121). -/
def markDetections (targets : List (String × ℕ)) (boxes : List Box) :
    List String :=
  boxes.filterMap (fun b => (findTarget targets b).map Prod.fst)

/-- The hard-coded per-class colour table (lines 104-110), BGR tuples. -/
def colorTable : List (String × (ℕ × ℕ × ℕ)) :=
  [("bird", (0, 255, 0)), ("mouse", (255, 0, 0)),
   ("cat", (0, 255, 255)), ("dog", (255, 255, 0))]

/-- `colors.get(desired_name_lower, (0, 255, 255))` (line 127). -/
def colorFor (name : String) : ℕ × ℕ × ℕ :=
  (((colorTable.find? (fun p => p.1 == name)).map Prod.snd).getD (0, 255, 255))

/-- Python `str.lower()`: every character lower-cased. -/
def pyLower (s : String) : String := String.mk (s.data.map Char.toLower)

/-- Python `str.capitalize()`: first character upper-cased, rest lower-cased. -/
def pyCapitalize (s : String) : String :=
  match s.data with
  | [] => ""
  | c :: cs => String.mk (c.toUpper :: cs.map Char.toLower)

/-- Two-decimal rendering of a rational, modelling the f-string `:.2f`
(rounded to the nearest hundredth; Python rounds the underlying double,
which agrees away from exact half-way points). -/
def fmt2 (q : ℚ) : String :=
  let n : ℤ := round (q * 100)
  let m : ℕ := n.natAbs
  (if n < 0 then "-" else "") ++ toString (m / 100) ++ "." ++
    (if m % 100 < 10 then "0" else "") ++ toString (m % 100)

/-- One `cv2.rectangle` + `cv2.putText` pair on `annotated_frame`
(lines 130-132), tagged with the target class it was drawn for. -/
structure DrawOp where
  rect : ℤ × ℤ × ℤ × ℤ
  color : ℕ × ℕ × ℕ
  label : String
  cls : String
deriving Repr, DecidableEq

/-- The drawing performed for one box, when some target matches it. -/
def boxDraw (targets : List (String × ℕ)) (b : Box) : Option DrawOp :=
  (findTarget targets b).map (fun p =>
    { rect := b.xyxy, color := colorFor p.1,
      label := pyCapitalize p.1 ++ " " ++ fmt2 b.conf, cls := p.1 })

/-- All drawing on the shared `annotated_frame` copy of one frame
(lines 100 and 112-133): one op per box that matched a target. -/
def drawOps (targets : List (String × ℕ)) (boxes : List Box) : List DrawOp :=
  boxes.filterMap (boxDraw targets)

/-- One whole iteration of the per-frame logging loop (lines 98-165) over
every target class: the updated states and the ordered list of class names
for which an event was emitted this frame. -/
def processFrame (interval : ℚ) (targets : List (String × ℕ))
    (boxes : List Box) (now : ℚ) (persistOk : Bool)
    (states : String → ClassState) : (String → ClassState) × List String :=
  let detected := markDetections targets boxes
  let step := fun n => stepClass interval (detected.contains n) now persistOk (states n)
  (fun n => if (targets.map Prod.fst).contains n then (step n).state else states n,
   (targets.map Prod.fst).filter (fun n => (step n).emit))

/-- The ingestion loop over a finite list of frames, each a pair of its
detected boxes and its `datetime.datetime.now()` timestamp. -/
def runStates (interval : ℚ) (targets : List (String × ℕ))
    (frames : List (List Box × ℚ)) (states : String → ClassState) :
    String → ClassState :=
  frames.foldl (fun st f => (processFrame interval targets f.1 f.2 true st).1) states

/-- The per-class state machine run on a list of `(detected, timestamp)`
inputs, recording the timestamps of the emitted events in order. -/
def classEvents (interval : ℚ) : List (Bool × ℚ) → ClassState → List ℚ
  | [], _ => []
  | (d, t) :: rest, s =>
    let r := stepClass interval d t true s
    (if r.emit then [t] else []) ++ classEvents interval rest r.state

/-- The inner search of the class resolver (lines 63-67): the first entry of
the model's `class_names` dict (id, name pairs) whose name matches the
desired name case-insensitively, projected to its id. -/
def resolveOne (vocab : List (ℕ × String)) (desired : String) : Option ℕ :=
  (vocab.find? (fun p => pyLower p.2 == pyLower desired)).map Prod.fst

/-- The resolver loop over `TARGET_CLASS_NAMES` (lines 62-73): builds
`mapped_target_class_ids` (keyed by the lower-cased desired name, in
configuration order) and the list of names warned about. -/
def resolveTargets (vocab : List (ℕ × String)) :
    List String → List (String × ℕ) × List String
  | [] => ([], [])
  | d :: ds =>
    let rest := resolveTargets vocab ds
    match resolveOne vocab d with
    | some i => ((pyLower d, i) :: rest.1, rest.2)
    | none => (rest.1, d :: rest.2)

/-- The startup guard (lines 75-77): `display_rtsp_feed` returns (aborts)
before the ingestion loop when `mapped_target_class_ids` is empty, and
otherwise proceeds with it. -/
def startupTargets (vocab : List (ℕ × String)) (names : List String) :
    Option (List (String × ℕ)) :=
  let m := (resolveTargets vocab names).1
  if m.isEmpty then none else some m

-- Basic step lemmas shared by several claims.

theorem stepClass_present_isSome (interval now : ℚ) (d ok : Bool)
    (s : ClassState) :
    (stepClass interval d now ok s).state.present_since.isSome = d := by
  cases d <;> cases h : s.present_since <;> simp [stepClass, h]

theorem stepClass_last_eq (interval now : ℚ) (d ok : Bool) (s : ClassState) :
    (stepClass interval d now ok s).state.last_logged_at =
      (if (stepClass interval d now ok s).emit then some now
       else s.last_logged_at) := rfl

theorem stepClass_last_cases (interval now : ℚ) (d ok : Bool) (s : ClassState) :
    (stepClass interval d now ok s).state.last_logged_at = s.last_logged_at ∨
    (stepClass interval d now ok s).state.last_logged_at = some now := by
  rw [stepClass_last_eq]
  by_cases h : (stepClass interval d now ok s).emit = true
  · right; simp [h]
  · left; simp [h]

/-- C1: from ABSENT (`present_since` unset), a detected frame transitions to
PRESENT with `present_since = now`, emits unconditionally (whatever
`last_logged_at` holds, however recent), and sets `last_logged_at = now`. -/
theorem absent_detected_emits_unconditionally (interval now : ℚ) (ok : Bool)
    (s : ClassState) (h : s.present_since = none) :
    (stepClass interval true now ok s).emit = true ∧
    (stepClass interval true now ok s).state.present_since = some now ∧
    (stepClass interval true now ok s).state.last_logged_at = some now := by
  simp [stepClass, h]

/-- C1 witness: a class that was absent, whose last event was at time 0,
re-detected at time 1/2 with throttle interval 1: it still emits. -/
theorem absent_detected_emits_unconditionally_witness :
    (⟨none, some 0⟩ : ClassState).present_since = none ∧
    ((stepClass 1 true (1/2) true ⟨none, some 0⟩).emit = true ∧
     (stepClass 1 true (1/2) true ⟨none, some 0⟩).state.present_since = some (1/2) ∧
     (stepClass 1 true (1/2) true ⟨none, some 0⟩).state.last_logged_at = some (1/2)) :=
  ⟨rfl, absent_detected_emits_unconditionally 1 (1/2) true ⟨none, some 0⟩ rfl⟩

/-- C3: on a frame where the class is not detected, no event is emitted,
`present_since` is cleared, and `last_logged_at` is untouched. -/
theorem undetected_clears_presence_only (interval now : ℚ) (ok : Bool)
    (s : ClassState) :
    (stepClass interval false now ok s).emit = false ∧
    (stepClass interval false now ok s).state.present_since = none ∧
    (stepClass interval false now ok s).state.last_logged_at = s.last_logged_at := by
  simp [stepClass]

/-- C7: the step is entirely independent of the persistence result
(`cv2.imwrite` return value `persistOk`), and whenever it emits it sets
`last_logged_at = now`, success or failure. -/
theorem emit_updates_last_regardless_of_persist (interval now : ℚ) (d : Bool)
    (s : ClassState) :
    (∀ ok ok' : Bool,
       stepClass interval d now ok s = stepClass interval d now ok' s) ∧
    (∀ ok : Bool, (stepClass interval d now ok s).emit = true →
       (stepClass interval d now ok s).state.last_logged_at = some now) := by
  refine ⟨fun ok ok' => rfl, fun ok h => ?_⟩
  rw [stepClass_last_eq, h]
  simp

theorem classEvents_chain (interval : ℚ) (inputs : List (Bool × ℚ)) :
    ∀ (s : ClassState) (l p : ℚ),
      s.present_since = some p → s.last_logged_at = some l →
      (∀ x ∈ inputs, x.1 = true) →
      List.Chain' (fun a b => interval ≤ b - a)
        (l :: classEvents interval inputs s) := by
  induction inputs with
  | nil => intro s l p hp hl hd; simp [classEvents]
  | cons x rest ih =>
    obtain ⟨d, t⟩ := x
    intro s l p hp hl hd
    have hd0 : d = true := hd (d, t) (by simp)
    subst hd0
    have hrest : ∀ x ∈ rest, x.1 = true := fun x hx => hd x (List.mem_cons_of_mem _ hx)
    have hsp : (stepClass interval true t true s).state.present_since = some p := by
      simp [stepClass, hp]
    by_cases he : interval ≤ t - l
    · have hemit : (stepClass interval true t true s).emit = true := by
        simp [stepClass, hp, hl, he]
      have hsl : (stepClass interval true t true s).state.last_logged_at = some t := by
        simp [stepClass, hp, hl, he]
      have hchain := ih _ t p hsp hsl hrest
      simpa [classEvents, hemit, List.chain'_cons] using ⟨he, hchain⟩
    · have hemit : (stepClass interval true t true s).emit = false := by
        simp [stepClass, hp, hl, he]
      have hsl : (stepClass interval true t true s).state.last_logged_at = some l := by
        simp [stepClass, hp, hl, he]
      have hchain := ih _ l p hsp hsl hrest
      simpa [classEvents, hemit] using hchain

/-- C2: from PRESENT (`present_since = some p`), a detected frame emits iff
`last_logged_at` is unset (defensive) or `now - last_logged_at` has reached
the throttle interval; emission sets `last_logged_at = now`, non-emission
leaves it alone, and `present_since` is unchanged either way.  Consequently
(last conjunct), while the class stays continuously present, the timestamps
of consecutive emitted events are at least the interval apart. -/
theorem present_detected_throttles (interval now p : ℚ) (ok : Bool)
    (s : ClassState) (h : s.present_since = some p) :
    ((stepClass interval true now ok s).emit = true ↔
       (s.last_logged_at = none ∨
        ∃ l, s.last_logged_at = some l ∧ interval ≤ now - l)) ∧
    ((stepClass interval true now ok s).emit = true →
       (stepClass interval true now ok s).state.last_logged_at = some now) ∧
    ((stepClass interval true now ok s).emit = false →
       (stepClass interval true now ok s).state.last_logged_at = s.last_logged_at) ∧
    (stepClass interval true now ok s).state.present_since = some p ∧
    (∀ (inputs : List (Bool × ℚ)) (l : ℚ), s.last_logged_at = some l →
       (∀ x ∈ inputs, x.1 = true) →
       List.Chain' (fun a b => interval ≤ b - a)
         (l :: classEvents interval inputs s)) := by
  refine ⟨?_, ?_, ?_, ?_, ?_⟩
  · cases hl : s.last_logged_at with
    | none => simp [stepClass, h, hl]
    | some l => simp [stepClass, h, hl]
  · intro he
    rw [stepClass_last_eq, he]
    simp
  · intro he
    rw [stepClass_last_eq, he]
    simp
  · simp [stepClass, h]
  · intro inputs l hl hall
    exact classEvents_chain interval inputs s l p h hl hall

/-- C2 witness: class present since time 0 with last event at time 0,
interval 1, re-detected at time 1/2 (no emission: 1/2 < 1). -/
theorem present_detected_throttles_witness :
    (⟨some 0, some 0⟩ : ClassState).present_since = some 0 ∧
    (((stepClass 1 true (1/2) true ⟨some 0, some 0⟩).emit = true ↔
       ((⟨some 0, some 0⟩ : ClassState).last_logged_at = none ∨
        ∃ l, (⟨some 0, some 0⟩ : ClassState).last_logged_at = some l ∧
          (1 : ℚ) ≤ 1/2 - l)) ∧
     ((stepClass 1 true (1/2) true ⟨some 0, some 0⟩).emit = true →
       (stepClass 1 true (1/2) true ⟨some 0, some 0⟩).state.last_logged_at
         = some (1/2)) ∧
     ((stepClass 1 true (1/2) true ⟨some 0, some 0⟩).emit = false →
       (stepClass 1 true (1/2) true ⟨some 0, some 0⟩).state.last_logged_at
         = (⟨some 0, some 0⟩ : ClassState).last_logged_at) ∧
     (stepClass 1 true (1/2) true ⟨some 0, some 0⟩).state.present_since = some 0 ∧
     (∀ (inputs : List (Bool × ℚ)) (l : ℚ),
        (⟨some 0, some 0⟩ : ClassState).last_logged_at = some l →
        (∀ x ∈ inputs, x.1 = true) →
        List.Chain' (fun a b => (1 : ℚ) ≤ b - a)
          (l :: classEvents 1 inputs ⟨some 0, some 0⟩))) :=
  ⟨rfl, present_detected_throttles 1 (1/2) 0 true ⟨some 0, some 0⟩ rfl⟩

/-- C10: in any processed frame the engine emits at most one event per
target class — the per-class decision is the single boolean
`should_log_and_save`, evaluated once per class in the loop over
`mapped_target_class_ids.keys()`, whose keys are pairwise distinct. -/
theorem at_most_one_event_per_class (interval now : ℚ) (ok : Bool)
    (targets : List (String × ℕ)) (boxes : List Box)
    (states : String → ClassState)
    (h : (targets.map Prod.fst).Nodup) :
    ∀ name : String,
      (processFrame interval targets boxes now ok states).2.count name ≤ 1 := by
  intro name
  have hnd : (processFrame interval targets boxes now ok states).2.Nodup := by
    simp only [processFrame]
    exact h.filter _
  exact List.nodup_iff_count_le_one.mp hnd name

/-- C10 witness: one target class, two qualifying boxes of it in the frame,
a fresh state: exactly one event. -/
theorem at_most_one_event_per_class_witness :
    ([("bird", 14)].map Prod.fst).Nodup ∧
    (∀ name : String,
      (processFrame 1 [("bird", 14)]
        [⟨14, 3/5, (0, 0, 4, 4)⟩, ⟨14, 7/10, (1, 1, 5, 5)⟩] 0 true
        initState).2.count name ≤ 1) :=
  ⟨by decide,
   at_most_one_event_per_class 1 0 true [("bird", 14)]
     [⟨14, 3/5, (0, 0, 4, 4)⟩, ⟨14, 7/10, (1, 1, 5, 5)⟩] initState (by decide)⟩

/-- C4: after any processed frame, a target class's `present_since` is set
iff the class was detected in that frame — whatever the history before it. -/
theorem presence_reflects_last_frame (interval now : ℚ)
    (targets : List (String × ℕ)) (frames : List (List Box × ℚ))
    (boxes : List Box) (states : String → ClassState) (name : String)
    (h : name ∈ targets.map Prod.fst) :
    ((runStates interval targets (frames ++ [(boxes, now)]) states) name).present_since.isSome
      = (markDetections targets boxes).contains name := by
  have happ : runStates interval targets (frames ++ [(boxes, now)]) states
      = (processFrame interval targets boxes now true
          (runStates interval targets frames states)).1 := by
    simp [runStates, List.foldl_append]
  have hc : (targets.map Prod.fst).contains name = true := List.elem_iff.mpr h
  rw [happ]
  simp only [processFrame, hc, if_pos]
  exact stepClass_present_isSome _ _ _ _ _

/-- C4 witness: bird detected in frame one, absent in frame two; after frame
two `present_since` is unset, matching the absent detection. -/
theorem presence_reflects_last_frame_witness :
    "bird" ∈ ([("bird", 14)].map Prod.fst) ∧
    ((runStates 1 [("bird", 14)]
        ([([⟨14, 3/5, (0, 0, 4, 4)⟩], 0)] ++ [([], 2)]) initState)
          "bird").present_since.isSome
      = (markDetections [("bird", 14)] []).contains "bird" :=
  ⟨by decide,
   presence_reflects_last_frame 1 2 [("bird", 14)]
     [([⟨14, 3/5, (0, 0, 4, 4)⟩], 0)] [] initState "bird" (by decide)⟩

theorem processFrame_last_cases (interval now : ℚ) (ok : Bool)
    (targets : List (String × ℕ)) (boxes : List Box)
    (states : String → ClassState) (name : String) :
    ((processFrame interval targets boxes now ok states).1 name).last_logged_at
      = (states name).last_logged_at ∨
    ((processFrame interval targets boxes now ok states).1 name).last_logged_at
      = some now := by
  by_cases h : (targets.map Prod.fst).contains name = true
  · simp only [processFrame, h, if_true]
    exact stepClass_last_cases _ _ _ _ _
  · left
    simp only [processFrame, h]
    simp

theorem runStates_last_mem (interval : ℚ) (targets : List (String × ℕ))
    (name : String) :
    ∀ (frames : List (List Box × ℚ)) (states : String → ClassState),
      ((runStates interval targets frames states) name).last_logged_at
        = (states name).last_logged_at ∨
      ∃ f ∈ frames,
        ((runStates interval targets frames states) name).last_logged_at
          = some f.2 := by
  intro frames
  induction frames with
  | nil => intro states; left; rfl
  | cons f fs ih =>
    intro states
    have hrun : runStates interval targets (f :: fs) states
        = runStates interval targets fs
            ((processFrame interval targets f.1 f.2 true states).1) := rfl
    rcases ih ((processFrame interval targets f.1 f.2 true states).1) with h | ⟨g, hg, hgl⟩
    · rcases processFrame_last_cases interval f.2 true targets f.1 states name with h2 | h2
      · left; rw [hrun, h, h2]
      · right; exact ⟨f, by simp, by rw [hrun, h, h2]⟩
    · right
      exact ⟨g, List.mem_cons_of_mem _ hg, by rw [hrun]; exact hgl⟩

theorem runStates_last_mono (interval : ℚ) (targets : List (String × ℕ))
    (name : String) :
    ∀ (ys : List (List Box × ℚ)) (states : String → ClassState) (l : ℚ),
      (states name).last_logged_at = some l →
      (∀ t ∈ ys.map Prod.snd, l ≤ t) →
      (ys.map Prod.snd).Pairwise (· ≤ ·) →
      ∃ l', ((runStates interval targets ys states) name).last_logged_at = some l'
        ∧ l ≤ l' := by
  intro ys
  induction ys with
  | nil => intro states l hl _ _; exact ⟨l, hl, le_refl l⟩
  | cons y ys ih =>
    intro states l hl hb hp
    have hrun : runStates interval targets (y :: ys) states
        = runStates interval targets ys
            ((processFrame interval targets y.1 y.2 true states).1) := rfl
    have hpt : (ys.map Prod.snd).Pairwise (· ≤ ·) := (List.pairwise_cons.mp hp).2
    have hhead : ∀ t ∈ ys.map Prod.snd, y.2 ≤ t := (List.pairwise_cons.mp hp).1
    rw [hrun]
    rcases processFrame_last_cases interval y.2 true targets y.1 states name with h2 | h2
    · exact ih ((processFrame interval targets y.1 y.2 true states).1) l
        (by rw [h2, hl]) (fun t ht => hb t (by simp [ht])) hpt
    · have hly : l ≤ y.2 := hb y.2 (by simp)
      obtain ⟨l', hl', hle⟩ := ih ((processFrame interval targets y.1 y.2 true states).1)
        y.2 h2 hhead hpt
      exact ⟨l', hl', le_trans hly hle⟩

/-- C5: with frame timestamps non-decreasing in frame order, once
`last_logged_at` holds a value after some prefix of the run (started from
the startup state), it only ever moves forward: after any extension of the
run it holds a value at least as large. -/
theorem last_logged_monotone (interval : ℚ) (targets : List (String × ℕ))
    (xs ys : List (List Box × ℚ)) (name : String) (l : ℚ)
    (hsorted : ((xs ++ ys).map Prod.snd).Pairwise (· ≤ ·))
    (hl : ((runStates interval targets xs initState) name).last_logged_at
            = some l) :
    ∃ l', ((runStates interval targets (xs ++ ys) initState) name).last_logged_at
            = some l' ∧ l ≤ l' := by
  have happ : runStates interval targets (xs ++ ys) initState
      = runStates interval targets ys (runStates interval targets xs initState) := by
    simp [runStates, List.foldl_append]
  rcases runStates_last_mem interval targets name xs initState with h | ⟨f, hf, hfl⟩
  · rw [hl] at h
    simp [initState] at h
  · have hlf : l = f.2 := by
      rw [hl] at hfl
      exact Option.some.inj hfl
    rw [List.map_append, List.pairwise_append] at hsorted
    obtain ⟨hxs, hys, hcross⟩ := hsorted
    have hb : ∀ t ∈ ys.map Prod.snd, l ≤ t := by
      intro t ht
      rw [hlf]
      exact hcross f.2 (List.mem_map_of_mem Prod.snd hf) t ht
    rw [happ]
    exact runStates_last_mono interval targets name ys _ l hl hb hys

/-- C5 witness: bird seen at time 0 (event logged at 0), then again at
time 2; `last_logged_at` moves from 0 to a value at least 0. -/
theorem last_logged_monotone_witness :
    (([([⟨14, 3/5, (0, 0, 4, 4)⟩], 0), ([⟨14, 3/5, (0, 0, 4, 4)⟩], 2)].map
        (Prod.snd (α := List Box))).Pairwise (· ≤ ·)) ∧
    ((runStates 1 [("bird", 14)] [([⟨14, 3/5, (0, 0, 4, 4)⟩], 0)] initState)
        "bird").last_logged_at = some 0 ∧
    ∃ l', ((runStates 1 [("bird", 14)]
        ([([⟨14, 3/5, (0, 0, 4, 4)⟩], 0)] ++ [([⟨14, 3/5, (0, 0, 4, 4)⟩], 2)])
        initState) "bird").last_logged_at = some l' ∧ (0 : ℚ) ≤ l' :=
  ⟨by decide, by decide,
   last_logged_monotone 1 [("bird", 14)]
     [([⟨14, 3/5, (0, 0, 4, 4)⟩], 0)] [([⟨14, 3/5, (0, 0, 4, 4)⟩], 2)]
     "bird" 0 (by decide) (by decide)⟩

theorem findTarget_spec (targets : List (String × ℕ)) (b : Box)
    (p : String × ℕ) (h : findTarget targets b = some p) :
    p ∈ targets ∧ b.cls = p.2 ∧ confThreshold < b.conf := by
  have hmem := List.mem_of_find?_eq_some h
  have hpred := List.find?_some h
  simp only [Bool.and_eq_true, beq_iff_eq, decide_eq_true_eq] at hpred
  exact ⟨hmem, hpred.1, hpred.2⟩

theorem findTarget_eq_some (targets : List (String × ℕ)) (b : Box)
    (name : String) (id : ℕ)
    (hi : (targets.map Prod.snd).Nodup) (hmem : (name, id) ∈ targets)
    (hcls : b.cls = id) (hconf : confThreshold < b.conf) :
    findTarget targets b = some (name, id) := by
  have hex : ∃ x ∈ targets,
      (fun p => b.cls == p.2 && decide (confThreshold < b.conf)) x = true :=
    ⟨(name, id), hmem, by simp [hcls, hconf]⟩
  have hsome : (targets.find?
      (fun p => b.cls == p.2 && decide (confThreshold < b.conf))).isSome :=
    List.find?_isSome.mpr hex
  obtain ⟨q, hq⟩ := Option.isSome_iff_exists.mp hsome
  have hspec := findTarget_spec targets b q hq
  have hqid : q.2 = (name, id).2 := by
    have := hspec.2.1
    rw [hcls] at this
    exact this.symm
  have hqeq : q = (name, id) := List.inj_on_of_nodup_map hi hspec.1 hmem hqid
  rw [← hqeq]
  exact hq

/-- C6: a raw detection qualifies (matches some target in the inner loop)
iff its class id equals a target id and its confidence strictly exceeds the
threshold; and a target class is present this frame iff at least one
qualifying detection of that class exists. -/
theorem detection_filter_iff (targets : List (String × ℕ)) (boxes : List Box)
    (name : String) (id : ℕ)
    (hk : (targets.map Prod.fst).Nodup) (hi : (targets.map Prod.snd).Nodup)
    (hmem : (name, id) ∈ targets) :
    (∀ b : Box, (findTarget targets b).isSome ↔
       ∃ p ∈ targets, b.cls = p.2 ∧ confThreshold < b.conf) ∧
    (name ∈ markDetections targets boxes ↔
       ∃ b ∈ boxes, b.cls = id ∧ confThreshold < b.conf) := by
  constructor
  · intro b
    constructor
    · intro hs
      obtain ⟨q, hq⟩ := Option.isSome_iff_exists.mp hs
      have hspec := findTarget_spec targets b q hq
      exact ⟨q, hspec.1, hspec.2.1, hspec.2.2⟩
    · rintro ⟨p, hp, hcls, hconf⟩
      exact List.find?_isSome.mpr ⟨p, hp, by simp [hcls, hconf]⟩
  · constructor
    · intro hn
      rw [markDetections, List.mem_filterMap] at hn
      obtain ⟨b, hb, hfb⟩ := hn
      rw [Option.map_eq_some'] at hfb
      obtain ⟨p, hp, hpf⟩ := hfb
      have hspec := findTarget_spec targets b p hp
      have hpn : p = (name, p.2) := by
        rw [← hpf]
      have hid : p.2 = id := by
        have h1 : p ∈ targets := hspec.1
        rw [hpn] at h1
        have : (name, p.2) = (name, id) :=
          List.inj_on_of_nodup_map hk h1 hmem rfl
        exact (Prod.mk.injEq _ _ _ _).mp this |>.2
      exact ⟨b, hb, by rw [← hid]; exact hspec.2.1, hspec.2.2⟩
    · rintro ⟨b, hb, hcls, hconf⟩
      rw [markDetections, List.mem_filterMap]
      exact ⟨b, hb, by rw [findTarget_eq_some targets b name id hi hmem hcls hconf]; rfl⟩

/-- C6 witness: with the resolved target `bird -> 14`, a bird detection at
confidence 0.49 does not mark presence and one at 0.51 does. -/
theorem detection_filter_iff_witness :
    ([("bird", 14)].map Prod.fst).Nodup ∧
    ([("bird", 14)].map Prod.snd).Nodup ∧
    ("bird", 14) ∈ [("bird", 14)] ∧
    ("bird" ∉ markDetections [("bird", 14)] [⟨14, 0.49, (0, 0, 4, 4)⟩]) ∧
    ("bird" ∈ markDetections [("bird", 14)] [⟨14, 0.51, (0, 0, 4, 4)⟩]) ∧
    ("bird" ∈ markDetections [("bird", 14)] [⟨14, 0.51, (0, 0, 4, 4)⟩] ↔
       ∃ b ∈ ([⟨14, 0.51, (0, 0, 4, 4)⟩] : List Box),
         b.cls = 14 ∧ confThreshold < b.conf) :=
  ⟨by decide, by decide, by decide, by decide, by decide,
   (detection_filter_iff [("bird", 14)] [⟨14, 0.51, (0, 0, 4, 4)⟩] "bird" 14
      (by decide) (by decide) (by decide)).2⟩

theorem resolveOne_isSome_iff (vocab : List (ℕ × String)) (d : String) :
    (resolveOne vocab d).isSome ↔ ∃ p ∈ vocab, pyLower p.2 = pyLower d := by
  rw [resolveOne, Option.isSome_map']
  rw [List.find?_isSome]
  constructor
  · rintro ⟨p, hp, hpred⟩
    exact ⟨p, hp, by simpa using hpred⟩
  · rintro ⟨p, hp, hpred⟩
    exact ⟨p, hp, by simpa using hpred⟩

theorem resolveOne_some_spec (vocab : List (ℕ × String)) (d : String) (i : ℕ)
    (h : resolveOne vocab d = some i) :
    ∃ p ∈ vocab, p.1 = i ∧ pyLower p.2 = pyLower d := by
  rw [resolveOne, Option.map_eq_some'] at h
  obtain ⟨p, hp, hpi⟩ := h
  have hmem := List.mem_of_find?_eq_some hp
  have hpred := List.find?_some hp
  exact ⟨p, hmem, hpi, by simpa using hpred⟩

theorem resolveTargets_fst_mem (vocab : List (ℕ × String)) (n : String) (i : ℕ) :
    ∀ names : List String,
      ((n, i) ∈ (resolveTargets vocab names).1 ↔
        ∃ d ∈ names, pyLower d = n ∧ resolveOne vocab d = some i) := by
  intro names
  induction names with
  | nil => simp [resolveTargets]
  | cons d ds ih =>
    cases hr : resolveOne vocab d with
    | some j =>
      simp only [resolveTargets, hr]
      constructor
      · intro h
        rcases List.mem_cons.mp h with heq | hrest
        · have hn : pyLower d = n := (congrArg Prod.fst heq).symm
          have hi : i = j := congrArg Prod.snd heq
          exact ⟨d, List.mem_cons_self d ds, hn, by rw [hr, hi]⟩
        · obtain ⟨d', hd', hdn, hdi⟩ := ih.mp hrest
          exact ⟨d', List.mem_cons_of_mem _ hd', hdn, hdi⟩
      · rintro ⟨d', hd', hdn, hdi⟩
        rcases List.mem_cons.mp hd' with hdd | hd'ds
        · subst hdd
          rw [hr] at hdi
          have hij : j = i := Option.some.inj hdi
          exact List.mem_cons.mpr (Or.inl (by simp [hdn, hij]))
        · exact List.mem_cons.mpr (Or.inr (ih.mpr ⟨d', hd'ds, hdn, hdi⟩))
    | none =>
      simp only [resolveTargets, hr]
      constructor
      · intro h
        obtain ⟨d', hd', hdn, hdi⟩ := ih.mp h
        exact ⟨d', List.mem_cons_of_mem _ hd', hdn, hdi⟩
      · rintro ⟨d', hd', hdn, hdi⟩
        rcases List.mem_cons.mp hd' with hdd | hd'ds
        · subst hdd
          rw [hr] at hdi
          exact absurd hdi (by simp)
        · exact ih.mpr ⟨d', hd'ds, hdn, hdi⟩

theorem resolveTargets_snd_eq (vocab : List (ℕ × String)) :
    ∀ names : List String,
      (resolveTargets vocab names).2
        = names.filter (fun d => (resolveOne vocab d).isNone) := by
  intro names
  induction names with
  | nil => simp [resolveTargets]
  | cons d ds ih =>
    cases hr : resolveOne vocab d with
    | some j => simp [resolveTargets, hr, List.filter_cons, ih]
    | none => simp [resolveTargets, hr, List.filter_cons, ih]

theorem resolveTargets_fst_nil_iff (vocab : List (ℕ × String)) :
    ∀ names : List String,
      ((resolveTargets vocab names).1 = [] ↔
        ∀ d ∈ names, resolveOne vocab d = none) := by
  intro names
  induction names with
  | nil => simp [resolveTargets]
  | cons d ds ih =>
    cases hr : resolveOne vocab d with
    | some j =>
      simp only [resolveTargets, hr]
      constructor
      · intro h
        exact absurd h (by simp)
      · intro h
        have := h d (List.mem_cons_self d ds)
        rw [hr] at this
        exact absurd this (by simp)
    | none =>
      simp only [resolveTargets, hr, ih]
      constructor
      · intro h d' hd'
        rcases List.mem_cons.mp hd' with hdd | hd'ds
        · subst hdd; exact hr
        · exact h d' hd'ds
      · intro h d' hd'
        exact h d' (List.mem_cons_of_mem _ hd')

/-- C8: the class resolver resolves exactly the configured names that match
the vocabulary case-insensitively (a resolved entry's id is a matching
vocabulary entry's id), warns once per unresolved name (excluding it from
the mapping, by the first conjunct), and startup aborts iff zero names
resolve — so the loop never starts with an empty target set. -/
theorem class_resolver_contract (vocab : List (ℕ × String))
    (names : List String) :
    (∀ d ∈ names,
       ((∃ p ∈ vocab, pyLower p.2 = pyLower d) ↔
        ∃ i, (pyLower d, i) ∈ (resolveTargets vocab names).1)) ∧
    (∀ n i, (n, i) ∈ (resolveTargets vocab names).1 →
       ∃ p ∈ vocab, p.1 = i ∧ pyLower p.2 = n) ∧
    ((resolveTargets vocab names).2
       = names.filter (fun d => (resolveOne vocab d).isNone)) ∧
    (startupTargets vocab names = none ↔
       ∀ d ∈ names, ¬∃ p ∈ vocab, pyLower p.2 = pyLower d) ∧
    (∀ m, startupTargets vocab names = some m → m ≠ []) := by
  refine ⟨?_, ?_, resolveTargets_snd_eq vocab names, ?_, ?_⟩
  · intro d hd
    constructor
    · intro hmatch
      have hs : (resolveOne vocab d).isSome := (resolveOne_isSome_iff vocab d).mpr hmatch
      obtain ⟨i, hi⟩ := Option.isSome_iff_exists.mp hs
      exact ⟨i, (resolveTargets_fst_mem vocab (pyLower d) i names).mpr ⟨d, hd, rfl, hi⟩⟩
    · rintro ⟨i, hi⟩
      obtain ⟨d', _, hdn, hdi⟩ := (resolveTargets_fst_mem vocab (pyLower d) i names).mp hi
      obtain ⟨p, hp, _, hpl⟩ := resolveOne_some_spec vocab d' i hdi
      exact ⟨p, hp, by rw [hpl, hdn]⟩
  · intro n i hmem
    obtain ⟨d', _, hdn, hdi⟩ := (resolveTargets_fst_mem vocab n i names).mp hmem
    obtain ⟨p, hp, hpi, hpl⟩ := resolveOne_some_spec vocab d' i hdi
    exact ⟨p, hp, hpi, by rw [hpl, hdn]⟩
  · rw [startupTargets]
    constructor
    · intro h d hd hmatch
      by_cases he : ((resolveTargets vocab names).1).isEmpty = true
      · have hnil : (resolveTargets vocab names).1 = [] := List.isEmpty_iff.mp he
        have hall := (resolveTargets_fst_nil_iff vocab names).mp hnil d hd
        have hs : (resolveOne vocab d).isSome :=
          (resolveOne_isSome_iff vocab d).mpr hmatch
        rw [hall] at hs
        exact absurd hs (by simp)
      · rw [if_neg he] at h
        exact absurd h (by simp)
    · intro h
      have hnil : (resolveTargets vocab names).1 = [] := by
        rw [resolveTargets_fst_nil_iff vocab names]
        intro d hd
        have : ¬(resolveOne vocab d).isSome := by
          rw [resolveOne_isSome_iff]
          exact h d hd
        exact Option.not_isSome_iff_eq_none.mp this
      simp [hnil]
  · intro m hm
    rw [startupTargets] at hm
    by_cases he : ((resolveTargets vocab names).1).isEmpty = true
    · rw [if_pos he] at hm
      exact absurd hm (by simp)
    · rw [if_neg he] at hm
      have hmm : (resolveTargets vocab names).1 = m := Option.some.inj hm
      intro hnil
      rw [hnil] at hmm
      exact he (by rw [hmm]; rfl)

/-- C8 witness (Scenario D): vocabulary `14 -> Bird`; `bird` resolves
case-insensitively, `unicorn` is warned about and excluded; with `unicorn`
as the only configured name, startup aborts. -/
theorem class_resolver_contract_witness :
    (resolveTargets [(14, "Bird")] ["bird", "unicorn"]).1 = [("bird", 14)] ∧
    (resolveTargets [(14, "Bird")] ["bird", "unicorn"]).2 = ["unicorn"] ∧
    startupTargets [(14, "Bird")] ["unicorn"] = none ∧
    ((resolveTargets [(14, "Bird")] ["bird", "unicorn"]).2
       = ["bird", "unicorn"].filter
           (fun d => (resolveOne [(14, "Bird")] d).isNone)) :=
  ⟨by decide, by decide, by decide,
   (class_resolver_contract [(14, "Bird")] ["bird", "unicorn"]).2.2.1⟩

/-- Justification for the `Nodup` hypotheses used on
`mapped_target_class_ids`: since the model's `class_names` is a dict (its
ids are pairwise distinct) and the configured names have pairwise-distinct
lower-casings, the resolver's mapping has pairwise-distinct keys and
pairwise-distinct ids. -/
theorem resolveTargets_nodup (vocab : List (ℕ × String))
    (hvoc : (vocab.map Prod.fst).Nodup) :
    ∀ names : List String, (names.map pyLower).Nodup →
      (((resolveTargets vocab names).1.map Prod.fst).Nodup ∧
       ((resolveTargets vocab names).1.map Prod.snd).Nodup) := by
  intro names
  induction names with
  | nil => intro _; simp [resolveTargets]
  | cons d ds ih =>
    intro hnames
    rw [List.map_cons, List.nodup_cons] at hnames
    obtain ⟨hdl, hds⟩ := hnames
    obtain ⟨ihk, ihi⟩ := ih hds
    cases hr : resolveOne vocab d with
    | none => simpa [resolveTargets, hr] using ⟨ihk, ihi⟩
    | some j =>
      simp only [resolveTargets, hr, List.map_cons, List.nodup_cons]
      refine ⟨⟨?_, ihk⟩, ⟨?_, ihi⟩⟩
      · intro hkey
        rw [List.mem_map] at hkey
        obtain ⟨⟨qn, qi⟩, hq, hqk⟩ := hkey
        obtain ⟨d', hd', hdn, _⟩ :=
          (resolveTargets_fst_mem vocab qn qi ds).mp hq
        apply hdl
        rw [List.mem_map]
        refine ⟨d', hd', ?_⟩
        rw [hdn]
        exact hqk
      · intro hid
        rw [List.mem_map] at hid
        obtain ⟨⟨qn, qi⟩, hq, hqi⟩ := hid
        obtain ⟨d', hd', hdn, hdi⟩ :=
          (resolveTargets_fst_mem vocab qn qi ds).mp hq
        obtain ⟨p', hp', hpi', hpl'⟩ := resolveOne_some_spec vocab d' qi hdi
        obtain ⟨p, hp, hpi, hpl⟩ := resolveOne_some_spec vocab d j hr
        have hpp : p = p' := by
          apply List.inj_on_of_nodup_map hvoc hp hp'
          rw [hpi, hpi']
          exact hqi.symm
        apply hdl
        rw [List.mem_map]
        refine ⟨d', hd', ?_⟩
        rw [← hpl', ← hpp, hpl]

/-- C9 as stated is false: drawing happens in the detection loop, before
and independent of the emit decision, so a class that is throttled this
frame (no event) still gets its qualifying boxes drawn.  Concretely: bird
is already present with a fresh last event (time 0), the next frame at
time 1/2 (throttle interval 1) emits nothing, yet the bird box is drawn. -/
theorem draw_without_emit_counterexample :
    ∃ op ∈ drawOps [("bird", 14)] [⟨14, mkRat 3 5, (0, 0, 1, 1)⟩],
      op.cls ∉ (processFrame 1 [("bird", 14)] [⟨14, mkRat 3 5, (0, 0, 1, 1)⟩]
        (1/2) true (fun _ => ⟨some 0, some 0⟩)).2 := by decide

/-- C9 amended: every qualifying box of every target class is drawn on the
shared per-frame copy, in that class's assigned colour with a label of the
capitalised class name plus the confidence to two decimals — regardless of
whether that class emits an event this frame (drawing precedes and is
independent of the emit decision); conversely each draw op for a class
comes from one of its qualifying boxes.  In particular every qualifying
box of an emitting class is drawn. -/
theorem draws_every_qualifying_box (targets : List (String × ℕ))
    (boxes : List Box) (name : String) (id : ℕ)
    (hk : (targets.map Prod.fst).Nodup) (hi : (targets.map Prod.snd).Nodup)
    (hmem : (name, id) ∈ targets) :
    (∀ b ∈ boxes, b.cls = id → confThreshold < b.conf →
       ({ rect := b.xyxy, color := colorFor name,
          label := pyCapitalize name ++ " " ++ fmt2 b.conf,
          cls := name } : DrawOp) ∈ drawOps targets boxes) ∧
    (∀ op ∈ drawOps targets boxes, op.cls = name →
       ∃ b ∈ boxes, b.cls = id ∧ confThreshold < b.conf ∧
         op.rect = b.xyxy ∧ op.color = colorFor name ∧
         op.label = pyCapitalize name ++ " " ++ fmt2 b.conf) := by
  constructor
  · intro b hb hcls hconf
    rw [drawOps, List.mem_filterMap]
    refine ⟨b, hb, ?_⟩
    rw [boxDraw, findTarget_eq_some targets b name id hi hmem hcls hconf]
    rfl
  · intro op hop hcn
    rw [drawOps, List.mem_filterMap] at hop
    obtain ⟨b, hb, hbd⟩ := hop
    rw [boxDraw, Option.map_eq_some'] at hbd
    obtain ⟨p, hfp, hpe⟩ := hbd
    have hspec := findTarget_spec targets b p hfp
    have hpn : p.1 = name := by rw [← hcn, ← hpe]
    have hpeq : p = (name, id) := by
      apply List.inj_on_of_nodup_map hk hspec.1 hmem
      exact hpn
    refine ⟨b, hb, by rw [hspec.2.1, hpeq], hspec.2.2, ?_, ?_, ?_⟩
    · rw [← hpe]
    · rw [← hpe]
      simp only
      rw [hpn]
    · rw [← hpe]
      simp only
      rw [hpn]

/-- C9 amended witness: bird box at confidence 0.51 is drawn with the bird
colour and the label `Bird 0.51`, and each bird draw op comes from a
qualifying bird box. -/
theorem draws_every_qualifying_box_witness :
    ([("bird", 14)].map Prod.fst).Nodup ∧
    ([("bird", 14)].map Prod.snd).Nodup ∧
    ("bird", 14) ∈ [("bird", 14)] ∧
    ({ rect := (0, 0, 4, 4), color := colorFor "bird",
       label := pyCapitalize "bird" ++ " " ++ fmt2 0.51,
       cls := "bird" } : DrawOp)
      ∈ drawOps [("bird", 14)] [⟨14, 0.51, (0, 0, 4, 4)⟩] :=
  ⟨by decide, by decide, by decide,
   (draws_every_qualifying_box [("bird", 14)] [⟨14, 0.51, (0, 0, 4, 4)⟩]
      "bird" 14 (by decide) (by decide) (by decide)).1
     ⟨14, 0.51, (0, 0, 4, 4)⟩ (by decide) (by decide) (by decide)⟩

/-- C7 witness: a class appearing at time 0 emits; with a failed write
(`persistOk = false`) the step still sets `last_logged_at = 0`, and the
whole step result equals the one with a successful write. -/
theorem emit_updates_last_regardless_of_persist_witness :
    (stepClass 1 true 0 false ⟨none, none⟩).emit = true ∧
    (stepClass 1 true 0 false ⟨none, none⟩).state.last_logged_at = some 0 ∧
    stepClass 1 true 0 false ⟨none, none⟩ = stepClass 1 true 0 true ⟨none, none⟩ :=
  ⟨rfl,
   (emit_updates_last_regardless_of_persist 1 0 true ⟨none, none⟩).2 false rfl,
   (emit_updates_last_regardless_of_persist 1 0 true ⟨none, none⟩).1 false true⟩
